import Mathlib

/-!
Verification development for the file-browser server.

The Go source resolves client paths with filepath.Join against the
configured serve directory, guards every file operation with a
strings.HasPrefix check, maintains a full-tree file index, and guards
mutating routes with JWT bearer tokens over a user store.

This file embeds those functions shallowly: Go strings become Lean
String, filepath.Clean / Join / Dir / Base are reimplemented for the
Unix separator exactly as in the Go standard library, handlers become
pure functions from their inputs to an outcome plus the filesystem
calls they would issue, and the user store becomes a list of records
with the handler logic transcribed from the source.
-/

/-- HTTP-level outcomes the handlers can produce, one constructor per
status the source emits. -/
inductive Outcome where
  | ok
  | created
  | accessDenied
  | notFound
  | badRequest
  | unauthorized
  | forbidden
  | conflict
  | internalError
deriving DecidableEq, Repr

/-! ### Path strings: Go filepath.Clean / Join / Dir / Base for Unix -/

/-- Split a character list on the slash separator; a list with no
slash yields a single component, and each slash starts a new
component (so repeated slashes yield empty components). -/
def splitSlash : List Char → List (List Char)
  | [] => [[]]
  | c :: t =>
    if c = '/' then [] :: splitSlash t
    else
      match splitSlash t with
      | [] => [[c]]
      | h :: r => (c :: h) :: r

/-- One step of the stack-based normalization inside filepath.Clean:
empty and dot components are dropped, dotdot pops a normal component
(or is kept when nothing can be popped in an unrooted path, or dropped
at the root of a rooted path), and any other component is pushed. -/
def cleanStep (rooted : Bool) (stack : List (List Char)) (c : List Char) : List (List Char) :=
  if c = [] ∨ c = ['.'] then stack
  else if c = ['.', '.'] then
    match stack with
    | [] => if rooted then [] else [['.', '.']]
    | top :: rest => if top = ['.', '.'] then c :: top :: rest else rest
  else c :: stack

/-- Reassemble path components with slash separators. -/
def joinComps : List (List Char) → List Char
  | [] => []
  | [c] => c
  | c :: rest => c ++ '/' :: joinComps rest

/-- Whether the character list denotes a rooted (absolute) path. -/
def isRooted : List Char → Bool
  | [] => false
  | c :: _ => c = '/'

/-- Go filepath.Clean on the character-list representation. -/
def cleanData (l : List Char) : List Char :=
  let rooted := isRooted l
  let comps := ((splitSlash l).foldl (cleanStep rooted) []).reverse
  if comps = [] then (if rooted then ['/'] else ['.'])
  else (if rooted then ['/'] else []) ++ joinComps comps

/-- Go filepath.Clean (Unix rules): lexical normalization of a path. -/
def goClean (s : String) : String := ⟨cleanData s.data⟩

/-- Go filepath.Join on two elements: non-empty elements are joined
with a slash and the result is cleaned; if all elements are empty the
result is the empty string. -/
def pathJoin (a b : String) : String :=
  if a = "" then (if b = "" then "" else goClean b)
  else if b = "" then goClean a
  else goClean (a ++ "/" ++ b)

/-- Go strings.HasPrefix, via the character lists of the strings. -/
def goHasPre (s pre : String) : Bool := pre.data.isPrefixOf s.data

/-- Go strings.TrimPrefix: drop the prefix when present, otherwise
return the string unchanged. -/
def goTrimPre (s pre : String) : String :=
  if goHasPre s pre then ⟨s.data.drop pre.data.length⟩ else s

/-- Go filepath.Dir: everything up to and including the final slash,
cleaned; a path with no slash has directory dot. -/
def goDir (s : String) : String :=
  goClean ⟨(s.data.reverse.dropWhile (fun c => c ≠ '/')).reverse⟩

/-- Go filepath.Base (Unix rules): strip trailing slashes, then keep
the part after the last slash; empty input gives dot and an
all-slashes input gives the separator itself. -/
def goBase (s : String) : String :=
  if s = "" then "."
  else
    let l := (s.data.reverse.dropWhile (fun c => c = '/')).reverse
    if l = [] then "/"
    else ⟨(l.reverse.takeWhile (fun c => c ≠ '/')).reverse⟩

/-- Filename exposed by Go mime/multipart for an uploaded part: empty
when the filename parameter is empty, otherwise filepath.Base of it
(the directory information is discarded by the standard library). -/
def mpFileName (s : String) : String := if s = "" then "" else goBase s

/-- Resolved path made by every handler: strings.TrimPrefix of the
leading slash on the wildcard parameter, then filepath.Join onto the
serve directory. -/
def sandboxResolve (serveDir rawPath : String) : String :=
  pathJoin serveDir (goTrimPre rawPath "/")

/-- The sandbox guard used by every file handler: strings.HasPrefix of
the resolved path against the serve directory. -/
def sandboxAccepts (serveDir rawPath : String) : Bool :=
  goHasPre (sandboxResolve serveDir rawPath) serveDir

/-- Being truly inside the sandbox: equal to the root or strictly
below it (the root followed by a slash is a prefix). -/
def isDescendant (root p : String) : Bool :=
  p = root || goHasPre p (root ++ "/")

/-! ### File operation handlers -/

/-- The browsePath handler's path resolution: the empty and bare-slash
parameters denote the root, any other parameter loses its leading
slash, and the result is joined onto the serve directory. -/
def browseResolve (serveDir rawPath : String) : String :=
  let requestPath := if rawPath = "" ∨ rawPath = "/" then "" else goTrimPre rawPath "/"
  pathJoin serveDir requestPath

/-- The renameFile handler: the sandbox check runs on the resolved
source path only; the destination is the client-supplied new name
joined onto the parent directory of the source, and the rename call is
issued without any further check. Returns the outcome before the
rename result together with the (source, destination) pair handed to
the rename call, when one is issued. -/
def renameFile (serveDir rawPath newName : String) : Outcome × Option (String × String) :=
  let fullPath := sandboxResolve serveDir rawPath
  if !(goHasPre fullPath serveDir) then (.accessDenied, none)
  else (.ok, some (fullPath, pathJoin (goDir fullPath) newName))

/-- The uploadFile handler: sandbox check on the target directory,
then the missing-payload check, then MkdirAll on the target directory
and Create on the target directory joined with the multipart filename.
The second component lists the paths handed to filesystem calls, in
order. -/
def uploadFile (serveDir rawPath : String) (hasPayload : Bool) (filename : String) :
    Outcome × List String :=
  let targetDir := sandboxResolve serveDir rawPath
  if !(goHasPre targetDir serveDir) then (.accessDenied, [])
  else if !hasPayload then (.badRequest, [])
  else (.ok, [targetDir, pathJoin targetDir (mpFileName filename)])

/-- The deleteFile handler: sandbox check, then RemoveAll on the
resolved path; RemoveAll is modelled by a flag saying whether it
fails (it succeeds on a nonexistent path). The second component is
the path handed to RemoveAll, when the call is reached. -/
def deleteFile (serveDir rawPath : String) (removeFails : Bool) : Outcome × Option String :=
  let fullPath := sandboxResolve serveDir rawPath
  if !(goHasPre fullPath serveDir) then (.accessDenied, none)
  else if removeFails then (.internalError, some fullPath)
  else (.ok, some fullPath)

/-! ### Tokens and authentication -/

/-- A stored user record: numeric identity, unique username, password
hash, admin flag. -/
structure User where
  id : Nat
  username : String
  passwordHash : String
  isAdmin : Bool
deriving DecidableEq, Repr

/-- The claims generateToken embeds in a signed token: identity,
username, admin flag, issued-at, and expires-at. Timestamps are Unix
seconds. -/
structure TokenClaims where
  userId : Nat
  username : String
  isAdmin : Bool
  iat : Int
  exp : Int
deriving DecidableEq, Repr

/-- generateToken at issuance time now: the expiry is now plus 24
hours and issued-at is now. -/
def generateToken (now : Int) (u : User) : TokenClaims :=
  { userId := u.id, username := u.username, isAdmin := u.isAdmin
    iat := now, exp := now + 24 * 3600 }

/-- The registered-claims validation done by the JWT library when the
middleware parses a token: the expiry must be strictly in the future
and the issued-at must not be in the future. -/
def claimsValid (now : Int) (c : TokenClaims) : Bool :=
  decide (now < c.exp) && decide (c.iat ≤ now)

/-- The authMiddleware decision on a parsed token: a bad signature or
failed claims validation yields Unauthorized, otherwise the request
proceeds. -/
def authMiddleware (now : Int) (sigOK : Bool) (c : TokenClaims) : Outcome :=
  if sigOK && claimsValid now c then .ok else .unauthorized

/-! ### User store and its handlers -/

/-- Number of admin users in the store (the is_admin count query). -/
def adminCount (db : List User) : Nat := (db.filter (fun u => u.isAdmin)).length

/-- Largest identity present in the store. -/
def maxId (db : List User) : Nat := db.foldr (fun u m => max u.id m) 0

/-- Identity the store assigns to the next created record. -/
def nextId (db : List User) : Nat := maxId db + 1

/-- Primary-key lookup. -/
def findById (db : List User) (i : Nat) : Option User :=
  db.find? (fun u => u.id == i)

/-- createDefaultAdmin: when the user table is empty, insert a single
admin user with the configured password, hashed. -/
def createDefaultAdmin (hash : String → String) (adminPassword : String)
    (db : List User) : List User :=
  if db.length = 0 then [{ id := 1, username := "admin", passwordHash := hash adminPassword, isAdmin := true }]
  else db

/-- createUser: binding requires a username and a password of at least
six characters; a duplicate username is a Conflict; otherwise the
record is inserted with a fresh identity. -/
def createUser (hash : String → String) (db : List User)
    (username password : String) (isAdmin : Bool) : Outcome × List User :=
  if username = "" ∨ password.length < 6 then (.badRequest, db)
  else if db.any (fun u => u.username == username) then (.conflict, db)
  else (.created, db ++ [{ id := nextId db, username := username, passwordHash := hash password, isAdmin := isAdmin }])

/-- deleteUser: count the admins, look the target up by identity
(Not-Found when absent), reject deleting an admin when at most one
admin exists, otherwise delete the record by primary key. -/
def deleteUser (db : List User) (i : Nat) : Outcome × List User :=
  let ac := adminCount db
  match findById db i with
  | none => (.notFound, db)
  | some u =>
    if u.isAdmin && decide (ac ≤ 1) then (.badRequest, db)
    else (.ok, db.filter (fun v => v.id != i))

/-- changePassword: binding requires the current password and a new
password of at least six characters; the caller's record must exist
and the supplied current password must match its hash before the hash
is replaced. -/
def changePassword (hash : String → String) (bmatch : String → String → Bool)
    (db : List User) (uid : Nat) (cur new : String) : Outcome × List User :=
  if cur = "" ∨ new.length < 6 then (.badRequest, db)
  else
    match findById db uid with
    | none => (.notFound, db)
    | some u =>
      if !(bmatch u.passwordHash cur) then (.badRequest, db)
      else (.ok, db.map (fun v => if v.id == uid then { v with passwordHash := hash new } else v))

/-- States of the user store reachable from the bootstrap state (the
default admin created over an empty table) by the user-management
handlers. The password hash and hash-match functions are parameters. -/
inductive Reachable (hash : String → String) (bmatch : String → String → Bool) : List User → Prop where
  | bootstrap (adminPassword : String) :
      Reachable hash bmatch (createDefaultAdmin hash adminPassword [])
  | create {db} (username password : String) (isAdmin : Bool) :
      Reachable hash bmatch db →
      Reachable hash bmatch (createUser hash db username password isAdmin).2
  | delete {db} (i : Nat) :
      Reachable hash bmatch db →
      Reachable hash bmatch (deleteUser db i).2
  | changePw {db} (uid : Nat) (cur new : String) :
      Reachable hash bmatch db →
      Reachable hash bmatch (changePassword hash bmatch db uid cur new).2

/-- The store invariant carried by every reachable state: identities
are pairwise distinct (the primary key) and at least one admin user
exists. -/
def StoreInv (db : List User) : Prop :=
  (db.map User.id).Nodup ∧ 1 ≤ adminCount db

/-- The login handler's response: an error status with its body, or a
token with the user summary. -/
inductive LoginResponse where
  | err (status : Nat) (body : String)
  | success (token : TokenClaims) (id : Nat) (username : String) (isAdmin : Bool)
deriving DecidableEq, Repr

/-- login: binding requires both fields; an unknown username and a
hash mismatch both yield status 401 with the same body; a match issues
a token. The store is returned unchanged on every path. -/
def login (bmatch : String → String → Bool) (now : Int) (db : List User)
    (username password : String) : LoginResponse × List User :=
  if username = "" ∨ password = "" then (.err 400 "binding error", db)
  else
    match db.find? (fun u => u.username == username) with
    | none => (.err 401 "Invalid credentials", db)
    | some u =>
      if bmatch u.passwordHash password then
        (.success (generateToken now u) u.id u.username u.isAdmin, db)
      else (.err 401 "Invalid credentials", db)

/-! ### The file index -/

/-- The fields of a walked entry that the index build uses. -/
structure IndexEntry where
  name : String
  relativePath : String
  size : Int
  isDir : Bool
deriving DecidableEq, Repr

/-- The index: files, directories, total file count, total size. -/
structure FileIndex where
  files : List IndexEntry
  directories : List IndexEntry
  totalFiles : Nat
  totalSize : Int
deriving DecidableEq, Repr

mutual
/-- A node of the filesystem tree under the serve root. A symlink
carries the resolved type and size of its target, or none when the
target cannot be resolved (a broken link reports size zero and
non-directory). The walk does not descend into symlinked
directories. -/
inductive FsNode where
  | file (name : String) (size : Int)
  | link (name : String) (resolved : Option (Bool × Int))
  | dir (name : String) (size : Int) (children : FsList)
/-- A directory listing: the children of a directory node, in the
sorted order the walk reads them. -/
inductive FsList where
  | nil
  | cons (head : FsNode) (tail : FsList)
end

/-- Relative path of a child: the walk's filepath.Rel output. -/
def relJoin (pre name : String) : String :=
  if pre = "" then name else pre ++ "/" ++ name

/-- The entry getFileInfo builds for a symlink: resolvable targets
contribute their own type and size, broken links report size zero and
non-directory. -/
def linkEntry (pre name : String) (resolved : Option (Bool × Int)) : IndexEntry :=
  match resolved with
  | some (d, sz) => { name := name, relativePath := relJoin pre name, size := sz, isDir := d }
  | none => { name := name, relativePath := relJoin pre name, size := 0, isDir := false }

mutual
/-- The walk: every node below the root is visited in order and
mapped to an entry; directories are visited before their children.
The children of a directory model its directory listing in the
sorted order the walk reads it. -/
def walkNode (pre : String) : FsNode → List IndexEntry
  | .file n sz => [{ name := n, relativePath := relJoin pre n, size := sz, isDir := false }]
  | .link n r => [linkEntry pre n r]
  | .dir n sz cs =>
      { name := n, relativePath := relJoin pre n, size := sz, isDir := true }
        :: walkFsList (relJoin pre n) cs
/-- The walk over a directory listing, in order. -/
def walkFsList (pre : String) : FsList → List IndexEntry
  | .nil => []
  | .cons h t => walkNode pre h ++ walkFsList pre t
end

/-- One iteration of the walk callback in buildIndex: a directory
entry is appended to the directories list, any other entry is
appended to the files list and its size added to the running total. -/
def indexStep (acc : FileIndex) (e : IndexEntry) : FileIndex :=
  if e.isDir then { acc with directories := acc.directories ++ [e] }
  else { acc with files := acc.files ++ [e], totalSize := acc.totalSize + e.size }

/-- buildIndex over the children of the serve root (the root itself
is skipped by the walk callback): fold the walked entries into an
empty index, then set the total file count from the files list. -/
def buildIndex (roots : FsList) : FileIndex :=
  let idx := (walkFsList "" roots).foldl indexStep
    { files := [], directories := [], totalFiles := 0, totalSize := 0 }
  { idx with totalFiles := idx.files.length }

/-! ### Helper lemmas -/

/-- strings.HasPrefix of a string against itself always holds. -/
theorem goHasPre_self (s : String) : goHasPre s s = true := by
  simp [goHasPre, List.isPrefixOf_iff_prefix]

/-- A string prefix extends over an appended suffix. -/
theorem goHasPre_append (s t u : String) (h : goHasPre s t = true) :
    goHasPre (s ++ u) t = true := by
  simp only [goHasPre, List.isPrefixOf_iff_prefix, String.data_append] at *
  exact h.trans (List.prefix_append s.data u.data)

/-! ### Claims about the path sandbox -/

/-- Claim C1: the sandbox check of browsePath (join the request path
onto the root, lexically normalize, test the string prefix) accepts
the concrete request dotdot slash data-evil against root slash data,
although the resolved path lies outside the root: the fail-closed
property of the specification does not hold of the code. -/
theorem browsePath_accepts_path_outside_root :
    browseResolve "/data" "/../data-evil" = "/data-evil" ∧
    goHasPre (browseResolve "/data" "/../data-evil") "/data" = true ∧
    isDescendant "/data" (browseResolve "/data" "/../data-evil") = false := by
  decide

/-- Claim C2: the rename handler joins the client-supplied new name
onto the parent of the resolved path with no sandbox check on the
result, so a new name with dotdot segments yields a rename call whose
destination lies outside the root. -/
theorem renameFile_destination_escapes_root :
    renameFile "/data" "/notes.txt" "../../tmp/evil"
      = (.ok, some ("/data/notes.txt", "/tmp/evil")) ∧
    isDescendant "/data" "/tmp/evil" = false := by
  decide

/-- Claim C4: a blank or bare-slash request path resolves to the serve
root itself (for any cleaned root), the prefix check accepts it, the
recursive removal call receives the root directory, and the handler
reports success. -/
theorem deleteFile_blank_path_removes_root (R : String) (h : goClean R = R) :
    deleteFile R "" false = (.ok, some R) ∧ deleteFile R "/" false = (.ok, some R) := by
  have hR : R ≠ "" := by
    intro he
    rw [he] at h
    exact absurd h (by decide)
  have h0 : goTrimPre "" "/" = "" := by decide
  have h1 : goTrimPre "/" "/" = "" := by decide
  have hj : pathJoin R "" = R := by
    simp [pathJoin, hR, h]
  constructor <;>
    simp [deleteFile, sandboxResolve, h0, h1, hj, goHasPre_self]

/-- Claim C4 witness at the default docker root. -/
theorem deleteFile_blank_path_removes_root_witness :
    goClean "/data" = "/data" ∧
    (deleteFile "/data" "" false = (.ok, some "/data") ∧
      deleteFile "/data" "/" false = (.ok, some "/data")) :=
  ⟨by decide, deleteFile_blank_path_removes_root "/data" (by decide)⟩

/-- Claim C9: the delete handler can only produce Access-Denied,
Internal-Error or success, never Not-Found; and for any accepted path
the removal call is reached and, when removal does not fail (as for a
nonexistent path), success is reported. -/
theorem deleteFile_error_kinds (R raw : String) (e : Bool) :
    ((deleteFile R raw e).1 = .accessDenied ∨ (deleteFile R raw e).1 = .internalError ∨
      (deleteFile R raw e).1 = .ok) ∧
    (goHasPre (sandboxResolve R raw) R = true →
      deleteFile R raw false = (.ok, some (sandboxResolve R raw))) := by
  unfold deleteFile
  by_cases hc : goHasPre (sandboxResolve R raw) R <;> cases e <;> simp [hc]

/-- Claim C9 witness on a concrete accepted, nonexistent path. -/
theorem deleteFile_error_kinds_witness :
    ((deleteFile "/data" "/ghost" false).1 = .accessDenied ∨
      (deleteFile "/data" "/ghost" false).1 = .internalError ∨
      (deleteFile "/data" "/ghost" false).1 = .ok) ∧
    deleteFile "/data" "/ghost" false = (.ok, some "/data/ghost") :=
  ⟨(deleteFile_error_kinds "/data" "/ghost" false).1,
    by
      have := (deleteFile_error_kinds "/data" "/ghost" false).2 (by decide)
      simpa using this⟩

/-! ### Claims about tokens and login -/

/-- Claim C5 counterexample: a token issued at time 1000 is rejected
at verification time 0, although 0 is strictly before the expiry, so
acceptance at every verification time strictly before issuance plus
24 hours does not hold: the JWT validation also rejects a token whose
issued-at lies in the future. -/
theorem token_rejected_before_issuance :
    (0 : Int) < (generateToken 1000 { id := 1, username := "admin", passwordHash := "h", isAdmin := true }).exp ∧
    authMiddleware 0 true (generateToken 1000 { id := 1, username := "admin", passwordHash := "h", isAdmin := true })
      = .unauthorized := by
  decide

/-- Claim C5 amended: a token issued at T expires at exactly T plus 24
hours; verification accepts it at any time from T up to strictly
before T plus 24 hours, and rejects it with Unauthorized at or after
T plus 24 hours, as well as strictly before T. -/
theorem token_lifetime (T now : Int) (u : User) :
    (generateToken T u).exp = T + 86400 ∧
    (T ≤ now ∧ now < T + 86400 →
      authMiddleware now true (generateToken T u) = .ok) ∧
    (now < T ∨ T + 86400 ≤ now →
      authMiddleware now true (generateToken T u) = .unauthorized) := by
  refine ⟨by norm_num [generateToken], ?_, ?_⟩
  · intro h
    have hv : claimsValid now (generateToken T u) = true := by
      simp only [claimsValid, generateToken, Bool.and_eq_true, decide_eq_true_eq]
      omega
    simp [authMiddleware, hv]
  · intro h
    have hv : claimsValid now (generateToken T u) = false := by
      simp only [claimsValid, generateToken]
      rcases h with h' | h'
      · have hd : decide (T ≤ now) = false := by simp; omega
        simp [hd]
      · have hd : decide (now < T + 24 * 3600) = false := by simp; omega
        simp [hd]
        omega
    simp [authMiddleware, hv]

/-- Claim C5 amended witness: issued at 0, accepted at one hour,
rejected at twenty-five hours. -/
theorem token_lifetime_witness :
    authMiddleware 3600 true (generateToken 0 { id := 1, username := "admin", passwordHash := "h", isAdmin := true }) = .ok ∧
    authMiddleware 90000 true (generateToken 0 { id := 1, username := "admin", passwordHash := "h", isAdmin := true }) = .unauthorized :=
  ⟨(token_lifetime 0 3600 _).2.1 (by decide),
   (token_lifetime 0 90000 _).2.2 (by decide)⟩

/-- Claim C8: an unknown username and a known username with a
non-matching password produce exactly the same response (status 401
with the same body), and no login request changes the user store. -/
theorem login_failures_indistinguishable (bmatch : String → String → Bool) (now : Int)
    (db : List User) (u1 p1 u2 p2 : String)
    (h1 : u1 ≠ "") (hp1 : p1 ≠ "")
    (h2 : u2 ≠ "") (hp2 : p2 ≠ "")
    (hu1 : db.find? (fun u => u.username == u1) = none)
    (hu2 : ∀ u, db.find? (fun v => v.username == u2) = some u → bmatch u.passwordHash p2 = false) :
    (login bmatch now db u1 p1).1 = LoginResponse.err 401 "Invalid credentials" ∧
    (login bmatch now db u2 p2).1 = LoginResponse.err 401 "Invalid credentials" ∧
    (∀ u p, (login bmatch now db u p).2 = db) := by
  refine ⟨?_, ?_, ?_⟩
  · simp [login, h1, hp1, hu1]
  · have hb : ¬(u2 = "" ∨ p2 = "") := by simp [h2, hp2]
    simp only [login, if_neg hb]
    cases hf : db.find? (fun v => v.username == u2) with
    | none => rfl
    | some u => simp [hu2 u hf]
  · intro u p
    unfold login
    split
    · rfl
    · cases db.find? (fun v => v.username == u) with
      | none => rfl
      | some w => by_cases hm : bmatch w.passwordHash p <;> simp [hm]

/-- Claim C8 witness: concrete store, an unknown user and a wrong
password give the same response twice with the store unchanged. -/
theorem login_failures_indistinguishable_witness :
    (login (fun _ _ => false) 0 [{ id := 1, username := "admin", passwordHash := "h", isAdmin := true }] "ghost" "pw").1
      = LoginResponse.err 401 "Invalid credentials" ∧
    (login (fun _ _ => false) 0 [{ id := 1, username := "admin", passwordHash := "h", isAdmin := true }] "admin" "wrong").1
      = LoginResponse.err 401 "Invalid credentials" ∧
    (∀ u p, (login (fun _ _ => false) 0 [{ id := 1, username := "admin", passwordHash := "h", isAdmin := true }] u p).2
      = [{ id := 1, username := "admin", passwordHash := "h", isAdmin := true }]) :=
  login_failures_indistinguishable (fun _ _ => false) 0 _ "ghost" "pw" "admin" "wrong"
    (by decide) (by decide) (by decide) (by decide) (by decide)
    (fun u h => rfl)

/-! ### Claims about the file index -/

/-- Folding walked entries into an index appends directory entries to
the directories list and other entries to the files list, adding only
the latter sizes to the running total. -/
theorem foldl_indexStep (entries : List IndexEntry) (acc : FileIndex) :
    ((entries.foldl indexStep acc).files = acc.files ++ entries.filter (fun e => !e.isDir)) ∧
    ((entries.foldl indexStep acc).directories = acc.directories ++ entries.filter (fun e => e.isDir)) ∧
    ((entries.foldl indexStep acc).totalSize
      = acc.totalSize + ((entries.filter (fun e => !e.isDir)).map IndexEntry.size).sum) := by
  induction entries generalizing acc with
  | nil => simp
  | cons e t ih =>
    obtain ⟨h1, h2, h3⟩ := ih (indexStep acc e)
    simp only [List.foldl_cons, List.filter_cons, h1, h2, h3]
    cases hd : e.isDir
    · simp [indexStep, hd]
      omega
    · simp [indexStep, hd]

/-- Claim C10: for every filesystem tree, the built index's total
file count is the length of its files list and its total size is the
sum of the sizes of the files list entries alone; on the tree with
one ten-byte file a/b.txt and one directory a/c the build yields
exactly the index of the specification scenario. -/
theorem buildIndex_aggregates (roots : FsList) :
    (buildIndex roots).totalFiles = (buildIndex roots).files.length ∧
    (buildIndex roots).totalSize = ((buildIndex roots).files.map IndexEntry.size).sum ∧
    buildIndex (.cons (.dir "a" 4096 (.cons (.file "b.txt" 10) (.cons (.dir "c" 4096 .nil) .nil))) .nil)
      = { files := [{ name := "b.txt", relativePath := "a/b.txt", size := 10, isDir := false }],
          directories := [{ name := "a", relativePath := "a", size := 4096, isDir := true },
                          { name := "c", relativePath := "a/c", size := 4096, isDir := true }],
          totalFiles := 1, totalSize := 10 } := by
  obtain ⟨h1, h2, h3⟩ := foldl_indexStep (walkFsList "" roots)
    { files := [], directories := [], totalFiles := 0, totalSize := 0 }
  have hfiles : (buildIndex roots).files
      = (walkFsList "" roots).filter (fun e => !e.isDir) := by
    show ((walkFsList "" roots).foldl indexStep
      { files := [], directories := [], totalFiles := 0, totalSize := 0 }).files = _
    rw [h1]
    rfl
  have hsize : (buildIndex roots).totalSize
      = (((walkFsList "" roots).filter (fun e => !e.isDir)).map IndexEntry.size).sum := by
    show ((walkFsList "" roots).foldl indexStep
      { files := [], directories := [], totalFiles := 0, totalSize := 0 }).totalSize = _
    rw [h3]
    simp
  refine ⟨rfl, ?_, by rfl⟩
  rw [hsize, hfiles]

/-! ### Claims about upload -/

/-- Splitting never yields an empty component list. -/
theorem splitSlash_ne_nil (l : List Char) : splitSlash l ≠ [] := by
  induction l with
  | nil => simp [splitSlash]
  | cons c t ih =>
    by_cases hc : c = '/'
    · simp [splitSlash, hc]
    · simp only [splitSlash, if_neg hc]
      cases hs : splitSlash t with
      | nil => simp
      | cons h r => simp

/-- Splitting distributes over a slash inserted between two lists. -/
theorem splitSlash_append (xs ys : List Char) :
    splitSlash (xs ++ '/' :: ys) = splitSlash xs ++ splitSlash ys := by
  induction xs with
  | nil => simp [splitSlash]
  | cons c t ih =>
    by_cases hc : c = '/'
    · simp [splitSlash, hc, ih]
    · simp only [List.cons_append, splitSlash, if_neg hc, List.append_eq]
      rw [ih]
      cases hs : splitSlash t with
      | nil => exact absurd hs (splitSlash_ne_nil t)
      | cons h r => simp

/-- A slash-free list is a single component. -/
theorem splitSlash_single (xs : List Char) (h : '/' ∉ xs) : splitSlash xs = [xs] := by
  induction xs with
  | nil => simp [splitSlash]
  | cons c t ih =>
    have hc : c ≠ '/' := fun he => h (by simp [he])
    have ht : '/' ∉ t := fun hm => h (by simp [hm])
    simp [splitSlash, hc, ih ht]

/-- Reassembling after appending one component appends it after a
slash. -/
theorem joinComps_concat (L : List (List Char)) (c : List Char) (h : L ≠ []) :
    joinComps (L ++ [c]) = joinComps L ++ '/' :: c := by
  induction L with
  | nil => exact absurd rfl h
  | cons x L ih =>
    cases L with
    | nil => simp [joinComps]
    | cons y L' =>
      have ih' := ih (by simp)
      simp only [List.cons_append] at ih'
      show joinComps (x :: ((y :: L') ++ [c])) = joinComps (x :: y :: L') ++ '/' :: c
      rw [List.cons_append]
      show (x ++ '/' :: joinComps (y :: (L' ++ [c])))
        = (x ++ '/' :: joinComps (y :: L')) ++ '/' :: c
      rw [ih']
      simp

/-- An ordinary component (not empty, dot, or dotdot) is pushed by the
normalization step. -/
theorem cleanStep_push (r : Bool) (st : List (List Char)) (c : List Char)
    (h0 : c ≠ []) (h1 : c ≠ ['.']) (h2 : c ≠ ['.', '.']) :
    cleanStep r st c = c :: st := by
  simp [cleanStep, h0, h1, h2]

/-- Rootedness is decided by the first character. -/
theorem isRooted_append (l m : List Char) (h : l ≠ []) :
    isRooted (l ++ m) = isRooted l := by
  cases l with
  | nil => exact absurd rfl h
  | cons c t => simp [isRooted]

/-- Appending a slash and an ordinary slash-free component to a
cleaned path other than the bare root or dot keeps it cleaned. -/
theorem cleanData_append_comp (l c : List Char)
    (h : cleanData l = l) (hr : l ≠ ['/']) (hd : l ≠ ['.'])
    (h0 : c ≠ []) (h1 : c ≠ ['.']) (h2 : c ≠ ['.', '.']) (hs : '/' ∉ c) :
    cleanData (l ++ '/' :: c) = l ++ '/' :: c := by
  have hl : l ≠ [] := by
    intro he
    rw [he] at h
    exact absurd h (by decide)
  have hro : isRooted (l ++ '/' :: c) = isRooted l := isRooted_append l ('/' :: c) hl
  have hsplit : splitSlash (l ++ '/' :: c) = splitSlash l ++ [c] := by
    rw [splitSlash_append, splitSlash_single c hs]
  simp only [cleanData] at h
  simp only [cleanData, hro, hsplit, List.foldl_append, List.foldl_cons, List.foldl_nil,
    cleanStep_push _ _ c h0 h1 h2, List.reverse_cons]
  have hS : ((splitSlash l).foldl (cleanStep (isRooted l)) []).reverse ≠ [] := by
    intro hrev
    rw [hrev] at h
    simp only [if_pos rfl] at h
    cases hri : isRooted l
    · rw [hri] at h
      simp at h
      exact hd h.symm
    · rw [hri] at h
      simp at h
      exact hr h.symm
  rw [if_neg hS] at h
  have hne : ((splitSlash l).foldl (cleanStep (isRooted l)) []).reverse ++ [c] ≠ [] := by
    simp
  rw [if_neg hne, joinComps_concat _ c hS, ← List.append_assoc, h]

/-- The string-level form of the previous lemma, for filepath.Join of
a cleaned directory with an ordinary component. -/
theorem goClean_append_comp (D b : String)
    (h : goClean D = D) (hr : D ≠ "/") (hd : D ≠ ".")
    (h0 : b ≠ "") (h1 : b ≠ ".") (h2 : b ≠ "..") (hs : '/' ∉ b.data) :
    goClean (D ++ "/" ++ b) = D ++ "/" ++ b := by
  have hdata : (D ++ "/" ++ b).data = D.data ++ '/' :: b.data := by
    simp [String.data_append]
  apply String.ext
  show cleanData ((D ++ "/" ++ b).data) = (D ++ "/" ++ b).data
  rw [hdata]
  refine cleanData_append_comp D.data b.data ?_ ?_ ?_ ?_ ?_ ?_ hs
  · exact congrArg String.data h
  · exact fun hc => hr (String.ext (by rw [hc]))
  · exact fun hc => hd (String.ext (by rw [hc]))
  · exact fun hc => h0 (String.ext (by rw [hc]))
  · exact fun hc => h1 (String.ext (by rw [hc]))
  · exact fun hc => h2 (String.ext (by rw [hc]))

/-- The multipart filename is empty, the bare separator, or free of
separators: the standard library strips any directory part. -/
theorem mpFileName_no_slash (F : String) :
    mpFileName F = "" ∨ mpFileName F = "/" ∨ '/' ∉ (mpFileName F).data := by
  unfold mpFileName
  by_cases hF : F = ""
  · simp [hF]
  · simp only [if_neg hF]
    unfold goBase
    simp only [if_neg hF]
    by_cases hl : (F.data.reverse.dropWhile (fun c => c = '/')).reverse = []
    · simp [hl]
    · simp only [if_neg hl]
      right; right
      intro hmem
      rw [List.mem_reverse] at hmem
      have := List.mem_takeWhile_imp hmem
      simp at this

/-- Extending a true descendant by a slash and a suffix keeps it a
true descendant. -/
theorem isDescendant_extend (R D b : String) (h : isDescendant R D = true) :
    isDescendant R (D ++ "/" ++ b) = true := by
  simp only [isDescendant, Bool.or_eq_true, decide_eq_true_eq] at h ⊢
  right
  rcases h with h | h
  · subst h
    exact goHasPre_append _ _ b (goHasPre_self (D ++ "/"))
  · exact goHasPre_append _ _ b (goHasPre_append _ _ "/" h)

/-- Claim C3 counterexample: through the flawed prefix check, the
target directory of an upload can itself lie outside the root, and
then the written file also lies outside the root while the handler
accepts and writes. -/
theorem uploadFile_writes_outside_root :
    uploadFile "/data" "/../data-evil" true "x.txt"
      = (.ok, ["/data-evil", "/data-evil/x.txt"]) ∧
    isDescendant "/data" "/data-evil/x.txt" = false := by
  decide

/-- Claim C3 amended: a request with no payload is rejected with
Bad-Request before any filesystem call; and whenever the validated
target directory is a true descendant of the root (not merely a
string-prefix match) and the multipart filename reduces to an
ordinary component, the created file path is exactly that component
directly under the target directory and is itself inside the root. -/
theorem uploadFile_inside_validated_dir :
    (∀ R raw F, goHasPre (sandboxResolve R raw) R = true →
      uploadFile R raw false F = (.badRequest, [])) ∧
    (∀ R D F, goClean D = D → D ≠ "/" → D ≠ "." → isDescendant R D = true →
      mpFileName F ≠ "" → mpFileName F ≠ "." → mpFileName F ≠ ".." → mpFileName F ≠ "/" →
      pathJoin D (mpFileName F) = D ++ "/" ++ mpFileName F ∧
      isDescendant R (pathJoin D (mpFileName F)) = true) := by
  constructor
  · intro R raw F hacc
    simp [uploadFile, hacc]
  · intro R D F hclean hslash hdot hdesc hb0 hb1 hb2 hb3
    have hDne : D ≠ "" := by
      intro he
      rw [he] at hclean
      exact absurd hclean (by decide)
    have hnos : '/' ∉ (mpFileName F).data := by
      rcases mpFileName_no_slash F with h | h | h
      · exact absurd h hb0
      · exact absurd h hb3
      · exact h
    have hjoin : pathJoin D (mpFileName F) = D ++ "/" ++ mpFileName F := by
      rw [pathJoin, if_neg hDne, if_neg hb0]
      exact goClean_append_comp D (mpFileName F) hclean hslash hdot hb0 hb1 hb2 hnos
    refine ⟨hjoin, ?_⟩
    rw [hjoin]
    exact isDescendant_extend R D (mpFileName F) hdesc

/-- Claim C3 amended witness: a payload-free request to a valid
directory is rejected with no filesystem call, and a normal filename
lands directly under the validated directory, inside the root. -/
theorem uploadFile_inside_validated_dir_witness :
    uploadFile "/data" "/docs" false "x.txt" = (.badRequest, []) ∧
    (pathJoin "/data/docs" (mpFileName "x.txt") = "/data/docs" ++ "/" ++ mpFileName "x.txt" ∧
      isDescendant "/data" (pathJoin "/data/docs" (mpFileName "x.txt")) = true) :=
  ⟨uploadFile_inside_validated_dir.1 "/data" "/docs" "x.txt" (by decide),
   uploadFile_inside_validated_dir.2 "/data" "/data/docs" "x.txt" (by decide) (by decide)
     (by decide) (by decide) (by decide) (by decide) (by decide) (by decide)⟩

/-! ### Claims about the user store -/

/-- Admin count over a cons. -/
theorem adminCount_cons (u : User) (t : List User) :
    adminCount (u :: t) = (if u.isAdmin then 1 else 0) + adminCount t := by
  simp only [adminCount, List.filter_cons]
  cases hu : u.isAdmin
  · simp
  · simp
    omega

/-- Admin count over an append. -/
theorem adminCount_append (l1 l2 : List User) :
    adminCount (l1 ++ l2) = adminCount l1 + adminCount l2 := by
  simp [adminCount, List.filter_append]

/-- Every stored identity is bounded by the maximum. -/
theorem mem_id_le_maxId (db : List User) (u : User) (h : u ∈ db) : u.id ≤ maxId db := by
  induction db with
  | nil => simp at h
  | cons w t ih =>
    have hmax : maxId (w :: t) = max w.id (maxId t) := rfl
    rcases List.mem_cons.mp h with he | ht
    · rw [he, hmax]
      exact Nat.le_max_left _ _
    · rw [hmax]
      exact (ih ht).trans (Nat.le_max_right _ _)

/-- The freshly assigned identity is not already stored. -/
theorem nextId_not_mem (db : List User) : nextId db ∉ db.map User.id := by
  intro hmem
  obtain ⟨u, hu, he⟩ := List.mem_map.mp hmem
  have := mem_id_le_maxId db u hu
  unfold nextId at he
  omega

/-- Removing the record found by a primary-key lookup removes exactly
its contribution to the admin count, when identities are distinct. -/
theorem adminCount_filter_of_find (db : List User) (i : Nat) (u : User)
    (hn : (db.map User.id).Nodup)
    (hf : db.find? (fun v => v.id == i) = some u) :
    adminCount (db.filter (fun v => v.id != i)) + (if u.isAdmin then 1 else 0)
      = adminCount db := by
  induction db with
  | nil => simp at hf
  | cons w t ih =>
    rw [List.map_cons, List.nodup_cons] at hn
    obtain ⟨hw, hn2⟩ := hn
    by_cases hwi : w.id = i
    · have hu : u = w := by
        rw [List.find?_cons_of_pos t (by simp [hwi])] at hf
        exact (Option.some_inj.mp hf).symm
      have hfilter : t.filter (fun v => v.id != i) = t := by
        apply List.filter_eq_self.mpr
        intro v hv
        simp only [bne_iff_ne, ne_eq, decide_eq_true_eq]
        intro he
        exact hw (by rw [hwi, ← he]; exact List.mem_map_of_mem User.id hv)
      rw [List.filter_cons_of_neg (by simp [hwi]), hfilter, hu, adminCount_cons]
      omega
    · have hf2 : t.find? (fun v => v.id == i) = some u := by
        rw [List.find?_cons_of_neg t (by simp [hwi])] at hf
        exact hf
      rw [List.filter_cons_of_pos (by simp [hwi]), adminCount_cons, adminCount_cons,
        ← ih hn2 hf2]
      omega

/-- User creation preserves the store invariant. -/
theorem storeInv_createUser (hash : String → String) (db : List User)
    (un pw : String) (adm : Bool) (h : StoreInv db) :
    StoreInv (createUser hash db un pw adm).2 := by
  unfold createUser
  by_cases h1 : un = "" ∨ pw.length < 6
  · simpa [h1] using h
  · simp only [if_neg h1]
    by_cases h2 : db.any (fun u => u.username == un) = true
    · simpa [h2] using h
    · simp only [h2, Bool.false_eq_true, if_false]
      constructor
      · rw [List.map_append]
        rw [List.nodup_append]
        refine ⟨h.1, List.nodup_singleton _, ?_⟩
        intro x hx hx2
        rw [List.map_singleton, List.mem_singleton] at hx2
        subst hx2
        exact nextId_not_mem db hx
      · rw [adminCount_append]
        have := h.2
        omega

/-- User deletion preserves the store invariant. -/
theorem storeInv_deleteUser (db : List User) (i : Nat) (h : StoreInv db) :
    StoreInv (deleteUser db i).2 := by
  unfold deleteUser
  cases hf : findById db i with
  | none => simpa using h
  | some u =>
    by_cases hcond : (u.isAdmin && decide (adminCount db ≤ 1)) = true
    · simpa [hcond] using h
    · simp only [hcond, Bool.false_eq_true, if_false]
      constructor
      · exact List.Nodup.sublist (List.Sublist.map User.id (List.filter_sublist db)) h.1
      · have key := adminCount_filter_of_find db i u h.1 hf
        by_cases hadm : u.isAdmin = true
        · have hac : ¬ adminCount db ≤ 1 := by
            intro hle
            exact hcond (by simp [hadm, hle])
          rw [hadm] at key
          simp only [if_true] at key
          omega
        · rw [Bool.not_eq_true] at hadm
          rw [hadm] at key
          simp only [Bool.false_eq_true, if_false] at key
          have := h.2
          omega

/-- The password update map keeps every identity. -/
theorem ids_map_pwupdate (hash : String → String) (uid : Nat) (new : String)
    (db : List User) :
    (db.map fun v => if v.id == uid then { v with passwordHash := hash new } else v).map User.id
      = db.map User.id := by
  rw [List.map_map]
  apply List.map_congr_left
  intro v _
  by_cases hb : v.id = uid <;> simp [hb]

/-- The password update map keeps the admin count. -/
theorem adminCount_map_pwupdate (hash : String → String) (uid : Nat) (new : String)
    (db : List User) :
    adminCount (db.map fun v => if v.id == uid then { v with passwordHash := hash new } else v)
      = adminCount db := by
  induction db with
  | nil => rfl
  | cons w t ih =>
    rw [List.map_cons, adminCount_cons, adminCount_cons, ih]
    by_cases hb : w.id = uid <;> simp [hb]

/-- Password change preserves the store invariant. -/
theorem storeInv_changePassword (hash : String → String) (bmatch : String → String → Bool)
    (db : List User) (uid : Nat) (cur new : String) (h : StoreInv db) :
    StoreInv (changePassword hash bmatch db uid cur new).2 := by
  unfold changePassword
  by_cases h1 : cur = "" ∨ new.length < 6
  · simpa [h1] using h
  · simp only [if_neg h1]
    cases hf : findById db uid with
    | none => simpa using h
    | some u =>
      by_cases hm : bmatch u.passwordHash cur = true
      · simp only [hm, Bool.not_true, Bool.false_eq_true, if_false]
        constructor
        · rw [ids_map_pwupdate]
          exact h.1
        · rw [adminCount_map_pwupdate]
          exact h.2
      · simpa [hm] using h

/-- Every reachable store state satisfies the invariant. -/
theorem reachable_storeInv (hash : String → String) (bmatch : String → String → Bool)
    (db : List User) (h : Reachable hash bmatch db) : StoreInv db := by
  induction h with
  | bootstrap pw =>
    constructor
    · simp [createDefaultAdmin]
    · simp [createDefaultAdmin, adminCount]
  | create un pw adm _ ih => exact storeInv_createUser hash _ un pw adm ih
  | delete i _ ih => exact storeInv_deleteUser _ i ih
  | changePw uid cur new _ ih => exact storeInv_changePassword hash bmatch _ uid cur new ih

/-- Claim C6: every user-store state reachable from the bootstrap
state by the user-management handlers has at least one admin user,
and a delete request for an admin user while at most one admin exists
is rejected with Bad-Request, leaving the store unchanged. -/
theorem userStore_admin_invariant (hash : String → String) (bmatch : String → String → Bool) :
    (∀ db, Reachable hash bmatch db → 1 ≤ adminCount db) ∧
    (∀ db (i : Nat) (u : User), findById db i = some u → u.isAdmin = true →
      adminCount db ≤ 1 → deleteUser db i = (.badRequest, db)) := by
  constructor
  · intro db h
    exact (reachable_storeInv hash bmatch db h).2
  · intro db i u hf hadm hle
    simp [deleteUser, hf, hadm, hle]

/-- Claim C6 witness: the bootstrap store has an admin, and deleting
the sole admin is rejected with the store unchanged. -/
theorem userStore_admin_invariant_witness :
    1 ≤ adminCount (createDefaultAdmin (fun p => p) "admin123" []) ∧
    deleteUser [{ id := 1, username := "admin", passwordHash := "h", isAdmin := true }] 1
      = (.badRequest, [{ id := 1, username := "admin", passwordHash := "h", isAdmin := true }]) :=
  ⟨(userStore_admin_invariant (fun p => p) (fun _ _ => true)).1 _ (Reachable.bootstrap "admin123"),
   (userStore_admin_invariant (fun p => p) (fun _ _ => true)).2 _ 1
     { id := 1, username := "admin", passwordHash := "h", isAdmin := true }
     (by decide) (by decide) (by decide)⟩
